import Mathlib

/-!
Verification of the lease-based distributed lock and service registry built
on an etcd-style consistent key-value store.

The definitions below are a shallow embedding of the repository's Go code:

* the manual distributed lock of TestDistributedLockNormal in
  etcd_dlock_test.go (conditional-write transaction on creation revision,
  watch on the lock key, retry on delete events, unlock by direct delete);
* RegistryEtcd.Registry / RegistryEtcd.DeRegistry in
  service_registry/registry.go (lease grant, record put bound to the lease,
  revoke on deregistration);
* DiscoveryEtcd.GetServiceAddr in service_registry/discovery.go
  (range read over a key range given by a raw name, random pick).

The etcd server itself is modelled by a small state: an association list of
key-value entries (each carrying its bound lease id and creation revision),
the set of currently live leases, and counters for the next revision and the
next lease id.  Transactions follow etcd's semantics: the server evaluates
the compare first and then lease-checks and applies only the ops of the
taken branch, atomically; a put referencing a dead lease in the taken
branch fails the whole transaction with lease-not-found, while a dead
lease in the branch that is not taken goes unnoticed.
-/

/-- Type of a watch event, mirroring clientv3.EventTypePut and
clientv3.EventTypeDelete. -/
inductive EvType
  | put
  | del
deriving DecidableEq, Repr

/-- A watch event as delivered on the watch channel: its type and the
affected key. -/
structure WEvent where
  type : EvType
  key : String
deriving DecidableEq, Repr

/-- One stored key-value entry of the modelled etcd server: the key, the
stored value, the lease id the entry is bound to, and the revision at which
the key was created (etcd's CreateRevision). -/
structure KeyVal where
  key : String
  value : String
  lease : Nat
  createRev : Nat
deriving DecidableEq, Repr

/-- State of the modelled etcd server: entries, live leases, the next
revision to be assigned to a newly created key, and the next lease id to be
handed out by Grant. -/
structure Store where
  kvs : List KeyVal
  alive : List Nat
  nextRev : Nat
  nextLease : Nat
deriving DecidableEq, Repr

/-- Point lookup of a key, as used by the etcd server to evaluate compares
and to decide whether a put creates or overwrites. -/
def Store.getKV (st : Store) (k : String) : Option KeyVal :=
  st.kvs.find? (fun kv => kv.key == k)

/-- CreateRevision of a key as etcd reports it in a compare: the revision at
which the key was created, or 0 when the key does not currently exist. -/
def Store.createRevision (st : Store) (k : String) : Nat :=
  match st.getKV k with
  | some kv => kv.createRev
  | none => 0

/-- Put of a key bound to a lease (clientv3.OpPut with clientv3.WithLease):
an existing key keeps its creation revision, a new key is created at the
current next revision.  Every put consumes a revision. -/
def Store.putLease (st : Store) (k v : String) (l : Nat) : Store :=
  match st.getKV k with
  | some _ =>
      { st with
        kvs := st.kvs.map (fun kv => if kv.key == k then { kv with value := v, lease := l } else kv)
        nextRev := st.nextRev + 1 }
  | none =>
      { st with
        kvs := ⟨k, v, l, st.nextRev⟩ :: st.kvs
        nextRev := st.nextRev + 1 }

/-- Deletion of a single key (client.Delete in step 7 of the manual lock). -/
def Store.deleteKey (st : Store) (k : String) : Store :=
  { st with kvs := st.kvs.filter (fun kv => kv.key != k), nextRev := st.nextRev + 1 }

/-- Watch events delivered for the deletion of key k: etcd fires one Delete
event exactly when the key existed. -/
def Store.deleteEvents (st : Store) (k : String) : List WEvent :=
  match st.getKV k with
  | some _ => [⟨EvType.del, k⟩]
  | none => []

/-- Lease grant (client.Grant): hands out the next lease id and marks it
live.  The TTL countdown itself is kept outside the state; a lease stays in
alive until it is revoked or expires. -/
def Store.grant (st : Store) : Nat × Store :=
  (st.nextLease, { st with alive := st.nextLease :: st.alive, nextLease := st.nextLease + 1 })

/-- Lease revocation (client.Revoke): the lease stops being live and every
key bound to it is deleted by the server (etcd's cascading delete). -/
def Store.revoke (st : Store) (l : Nat) : Store :=
  { st with
    alive := st.alive.filter (fun x => x != l)
    kvs := st.kvs.filter (fun kv => kv.lease != l) }

/-- Watch events fired by revoking lease l: one Delete event per key bound
to the lease. -/
def Store.revokeEvents (st : Store) (l : Nat) : List WEvent :=
  (st.kvs.filter (fun kv => kv.lease == l)).map (fun kv => ⟨EvType.del, kv.key⟩)

/-- Errors surfaced by store operations, following the error taxonomy of the
spec: leaseInvalid models etcd's lease-not-found rejection of a transaction
referencing a dead lease. -/
inductive DErr
  | leaseInvalid
deriving DecidableEq, Repr

/-- A compare condition of a transaction; the lock only ever uses
clientv3.Compare(clientv3.CreateRevision(lockKey), "=", 0). -/
inductive Cmp
  | createRevEq : String → Nat → Cmp
deriving DecidableEq, Repr

/-- A mutation operation inside a transaction branch; the lock only ever
uses a single put bound to a lease. -/
inductive Op
  | put : String → String → Nat → Op
deriving DecidableEq, Repr

/-- Whether the lease referenced by an op is currently live; the etcd server
checks this for the puts of the transaction branch it is about to apply,
failing the whole transaction with lease-not-found otherwise. -/
def Store.opLeaseOk (st : Store) : Op → Bool
  | Op.put _ _ l => st.alive.contains l

/-- Lease check over the ops of the taken transaction branch. -/
def Store.checkOps (st : Store) (ops : List Op) : Bool :=
  ops.all st.opLeaseOk

/-- Evaluation of a compare condition by the server. -/
def Store.evalCmp (st : Store) : Cmp → Bool
  | Cmp.createRevEq k n => st.createRevision k == n

/-- Application of one branch op. -/
def Store.applyOp (st : Store) : Op → Store
  | Op.put k v l => st.putLease k v l

/-- Atomic compare-and-branch transaction, the Txn.If.Then.Commit of
clientv3 restricted to the shapes the lock uses: the server evaluates the
compare first, then lease-checks and applies only the ops of the taken
branch in one atomic step, reporting in the Bool whether the If condition
held.  A put whose lease is dead fails the transaction only when its
branch is the one taken; a failed compare with an empty else branch
returns succeeded = false with no error, whatever the then branch
references. -/
def Store.txnCommit (st : Store) (c : Cmp) (thenOps elseOps : List Op) :
    Except DErr (Bool × Store) :=
  if st.evalCmp c then
    if st.checkOps thenOps then Except.ok (true, thenOps.foldl Store.applyOp st)
    else Except.error DErr.leaseInvalid
  else
    if st.checkOps elseOps then Except.ok (false, elseOps.foldl Store.applyOp st)
    else Except.error DErr.leaseInvalid

/-- The lock key used by TestDistributedLockNormal. -/
def lockKey : String := "my-distributed-lock-normal"

/-- The acquisition transaction of the manual lock, exactly as built in
etcd_dlock_test.go: If CreateRevision(lockKey) = 0 Then Put(lockKey,
"locked", WithLease(l)), with no else branch. -/
def lockTxn (st : Store) (l : Nat) : Except DErr (Bool × Store) :=
  st.txnCommit (Cmp.createRevEq lockKey 0) [Op.put lockKey "locked" l] []

/-- Outcome of scanning one watch session's events, as the waiter's loop in
etcd_dlock_test.go does: the first Delete event triggers the goto-getlock
retry; if the channel closes first the range loop just ends. -/
inductive WaitRes
  | retry
  | closedOut
deriving DecidableEq, Repr

/-- The waiter's event loop: scan events in delivery order, retry at the
first Delete event, fall out when the channel is exhausted. -/
def waitForDelete : List WEvent → WaitRes
  | [] => WaitRes.closedOut
  | e :: es => if e.type = EvType.del then WaitRes.retry else waitForDelete es

/-- Control outcome of one pass through the getlock body of
TestDistributedLockNormal, given the store at the attempt and the events
the watch delivers before its channel closes. -/
inductive RoundRes
  | acquired (st : Store)
  | fatal (e : DErr)
  | retryAfterDel
  | criticalNoLock (st : Store)
deriving DecidableEq, Repr

/-- One pass through the getlock body: commit the conditional-write
transaction; on a commit error the test aborts with that error; on success
the caller proceeds into the critical section holding the lock; on a failed
compare it watches the lock key — a Delete event jumps back to getlock,
while a closed watch channel makes control fall out of the range loop and
continue into the critical section without the lock. -/
def lockRound (st : Store) (l : Nat) (evs : List WEvent) : RoundRes :=
  match lockTxn st l with
  | Except.error e => RoundRes.fatal e
  | Except.ok (true, st₁) => RoundRes.acquired st₁
  | Except.ok (false, _) =>
      match waitForDelete evs with
      | WaitRes.retry => RoundRes.retryAfterDel
      | WaitRes.closedOut => RoundRes.criticalNoLock st

/-- Local control state of one process running the manual lock protocol,
following the spec's state machine Idle -> Attempting -> Held -> Idle with
the contention branch Attempting -> Waiting -> Attempting; waiting carries
the watch cursor (the position in the event history from which this
process's watch observes events); errored is the aborted-on-error exit. -/
inductive PState
  | idle
  | attempting
  | waiting (c : Nat)
  | held
  | errored
deriving DecidableEq, Repr

/-- The lease a lock-protocol process keeps alive for its attempts; each
process owns one distinct lease (granted and renewed in step 2 of the
test). -/
def leaseOf (p : Nat) : Nat := p + 1

/-- Pointwise update of the process-state map. -/
def updP (f : Nat → PState) (p : Nat) (v : PState) : Nat → PState :=
  fun q => if q = p then v else f q

/-- Global state of the concurrent lock system: the store, every process's
control state, and the history of watch events fired on the lock key. -/
structure Sys where
  store : Store
  procs : Nat → PState
  log : List WEvent

/-- Actions of the concurrent lock system, one per atomic step a process
takes in TestDistributedLockNormal. -/
inductive Act
  | start (p : Nat)
  | tryLock (p : Nat)
  | observe (p : Nat)
  | unlock (p : Nat)
  | expire (p : Nat)
deriving DecidableEq, Repr

/-- Small-step semantics of the lock system; none means the action is not
enabled.  start begins a Lock call; tryLock commits the conditional-write
transaction (success puts the key and the caller is held in the same atomic
step; a failed compare starts a watch at the current end of the event
history; a commit error aborts the caller); observe consumes the next watch
event, retrying on Delete and continuing to wait otherwise; unlock deletes
the lock key directly (step 7 of the test), firing the corresponding Delete
event; expire is the store expiring the holder's lease, cascading the key
deletion and forcing the holder out of held, as in the spec's state
machine. -/
def stepAct (s : Sys) : Act → Option Sys
  | Act.start p =>
      if s.procs p = PState.idle then
        some ⟨s.store, updP s.procs p PState.attempting, s.log⟩
      else none
  | Act.tryLock p =>
      if s.procs p = PState.attempting then
        match lockTxn s.store (leaseOf p) with
        | Except.ok (true, st₁) =>
            some ⟨st₁, updP s.procs p PState.held, s.log ++ [⟨EvType.put, lockKey⟩]⟩
        | Except.ok (false, _) =>
            some ⟨s.store, updP s.procs p (PState.waiting s.log.length), s.log⟩
        | Except.error _ =>
            some ⟨s.store, updP s.procs p PState.errored, s.log⟩
      else none
  | Act.observe p =>
      match s.procs p with
      | PState.waiting c =>
          match s.log[c]? with
          | some e =>
              if e.type = EvType.del then
                some ⟨s.store, updP s.procs p PState.attempting, s.log⟩
              else
                some ⟨s.store, updP s.procs p (PState.waiting (c + 1)), s.log⟩
          | none => none
      | _ => none
  | Act.unlock p =>
      if s.procs p = PState.held then
        some ⟨s.store.deleteKey lockKey, updP s.procs p PState.idle,
              s.log ++ s.store.deleteEvents lockKey⟩
      else none
  | Act.expire p =>
      if s.procs p = PState.held then
        some ⟨s.store.revoke (leaseOf p), updP s.procs p PState.idle,
              s.log ++ s.store.revokeEvents (leaseOf p)⟩
      else none

/-- Run of a sequence of actions from a state. -/
def runActs : Sys → List Act → Option Sys
  | s, [] => some s
  | s, a :: rest =>
      match stepAct s a with
      | some s₁ => runActs s₁ rest
      | none => none

/-- Initial system: empty store, the given set of live leases (one per
participating process, kept alive by their keep-alive goroutines), all
processes idle, no events yet. -/
def initSys (a : List Nat) : Sys :=
  ⟨⟨[], a, 1, 1⟩, fun _ => PState.idle, []⟩

/-- System invariant: revisions start at 1, every stored entry was created
at a positive revision, and a held process's lease is exactly the lease the
lock key is bound to. -/
def sysInv (s : Sys) : Prop :=
  1 ≤ s.store.nextRev ∧
  (∀ kv ∈ s.store.kvs, 1 ≤ kv.createRev) ∧
  (∀ p, s.procs p = PState.held →
    ∃ v r, s.store.getKV lockKey = some ⟨lockKey, v, leaseOf p, r⟩)

/-- A service as seen by the registry interface: its name and address. -/
structure RegSvc where
  name : String
  addr : String
deriving DecidableEq, Repr

/-- Errors of the registry and discovery components: connection models a
failed store RPC, notFound the discovery miss of GetServiceAddr. -/
inductive RErr
  | connection
  | notFound
deriving DecidableEq, Repr

/-- The mutable state of RegistryEtcd that matters to the protocol: the
single leaseID field, overwritten by every Registry call. -/
structure RegistryEtcd where
  leaseID : Nat
deriving DecidableEq, Repr

/-- Outcomes of the store RPCs issued during one Registry call, injected to
model the failure cases: whether Grant fails, whether the Put fails, and
whether starting KeepAlive fails. -/
structure RegEnv where
  grantFails : Bool
  putFails : Bool
  kaFails : Bool
deriving DecidableEq, Repr

/-- RegistryEtcd.Registry from service_registry/registry.go: grant a lease
and remember its id in the leaseID field, build the record key as the
service name, a dash and a fresh uuid (the uuid argument models
uuid.New().String()), put the record bound to the lease, then start the
keep-alive stream.  Each failing RPC returns its error immediately, leaving
the store as the preceding RPCs left it; in particular a put failure after
a successful grant returns without revoking the fresh lease. -/
def registryCall (env : RegEnv) (st : Store) (r : RegistryEtcd) (svc : RegSvc)
    (uuid : String) : Store × RegistryEtcd × Option RErr :=
  if env.grantFails then (st, r, some RErr.connection)
  else
    let l := st.grant.1
    let st₁ := st.grant.2
    let r₁ := { r with leaseID := l }
    if env.putFails then (st₁, r₁, some RErr.connection)
    else
      let st₂ := st₁.putLease (svc.name ++ "-" ++ uuid) svc.addr l
      if env.kaFails then (st₂, r₁, some RErr.connection)
      else (st₂, r₁, none)

/-- RegistryEtcd.DeRegistry from service_registry/registry.go: revoke the
lease currently stored in the leaseID field (cascading deletion of the keys
bound to it) and close the client; closing the connection does not change
the server state. -/
def deRegistry (st : Store) (r : RegistryEtcd) : Store × Option RErr :=
  (st.revoke r.leaseID, none)

/-- Key-range membership of etcd's WithPrefix read: the raw byte sequence
of the queried name is a prefix of the stored key, with no separator
check. -/
def keyInRange (p k : String) : Bool :=
  p.data.isPrefixOf k.data

/-- DiscoveryEtcd.GetServiceAddr from service_registry/discovery.go: read
every record whose key starts with the queried name, fail with notFound
when there are none, otherwise return the value of the record at the random
index rand.Intn(count), modelled as rnd modulo the count for an external
randomness source rnd. -/
def getServiceAddr (st : Store) (name : String) (rnd : Nat) : Except RErr String :=
  let kvs := st.kvs.filter (fun kv => keyInRange name kv.key)
  if hl : kvs.length = 0 then Except.error RErr.notFound
  else Except.ok ((kvs.get ⟨rnd % kvs.length, Nat.mod_lt _ (Nat.pos_of_ne_zero hl)⟩).value)

/-- A concrete two-step schedule: process 0 starts a Lock call and wins the
conditional write. -/
def c1Acts : List Act := [Act.start 0, Act.tryLock 0]

/-- The system state reached by running c1Acts from the initial system with
the single live lease 1 (the lease of process 0). -/
def c1Sys : Sys := (runActs (initSys [1]) c1Acts).getD (initSys [1])

/-- A concrete contended state: process 0 holds the lock (its lease 1 bound
to the lock key), process 1 is waiting with its watch started at the
current end of the event history. -/
def c3Sys : Sys :=
  ⟨⟨[⟨lockKey, "locked", 1, 1⟩], [1, 2], 2, 3⟩,
   fun n => if n = 0 then PState.held else if n = 1 then PState.waiting 0 else PState.idle,
   []⟩

/-- A concrete store in which the lock key is held by lease 2 while the
caller's lease 1 is also live. -/
def c4Store : Store := ⟨[⟨lockKey, "locked", 2, 1⟩], [1, 2], 2, 3⟩

/-- The store after the first Registry call of the deregistration scenario:
one record bound to lease 1. -/
def c7St1 : Store := ⟨[⟨"order_service-u1", "localhost:8080", 1, 1⟩], [1], 2, 2⟩

/-- The store after the second Registry call: a second record bound to the
fresh lease 2, both leases live. -/
def c7St2 : Store :=
  ⟨[⟨"order_service-u2", "localhost:8080", 2, 2⟩,
    ⟨"order_service-u1", "localhost:8080", 1, 1⟩], [2, 1], 3, 3⟩

/-- The store after DeRegistry: only lease 2 was revoked, so the first
record and its lease 1 survive. -/
def c7St3 : Store := ⟨[⟨"order_service-u1", "localhost:8080", 1, 1⟩], [1], 3, 3⟩

/-! ### Basic lemmas about the modelled store and system -/

theorem updP_self (f : Nat → PState) (p : Nat) (v : PState) : updP f p v p = v := by
  simp [updP]

theorem updP_other (f : Nat → PState) (p : Nat) (v : PState) {q : Nat} (h : q ≠ p) :
    updP f p v q = f q := by
  simp [updP, h]

theorem getKV_mem {st : Store} {k : String} {kv : KeyVal} (h : st.getKV k = some kv) :
    kv ∈ st.kvs ∧ kv.key = k := by
  unfold Store.getKV at h
  refine ⟨List.mem_of_find?_eq_some h, ?_⟩
  have hp := List.find?_some h
  simpa using hp

theorem getKV_eq_none_of_createRevision_zero {st : Store} {k : String}
    (hwf : ∀ kv ∈ st.kvs, 1 ≤ kv.createRev) (h : st.createRevision k = 0) :
    st.getKV k = none := by
  cases hk : st.getKV k with
  | none => rfl
  | some kv =>
      exfalso
      have hmem := (getKV_mem hk).1
      have h1 := hwf kv hmem
      simp [Store.createRevision, hk] at h
      omega

theorem getKV_putLease_self {st : Store} {k v : String} {l : Nat} (h : st.getKV k = none) :
    (st.putLease k v l).getKV k = some ⟨k, v, l, st.nextRev⟩ := by
  unfold Store.putLease
  rw [h]
  simp [Store.getKV, List.find?]

theorem kvs_putLease_of_none {st : Store} {k v : String} {l : Nat} (h : st.getKV k = none) :
    (st.putLease k v l).kvs = ⟨k, v, l, st.nextRev⟩ :: st.kvs := by
  simp [Store.putLease, h]

theorem nextRev_putLease (st : Store) (k v : String) (l : Nat) :
    (st.putLease k v l).nextRev = st.nextRev + 1 := by
  unfold Store.putLease
  cases st.getKV k <;> rfl

theorem wf_putLease {st : Store} {k v : String} {l : Nat}
    (h1 : 1 ≤ st.nextRev) (hwf : ∀ kv ∈ st.kvs, 1 ≤ kv.createRev) :
    ∀ kv ∈ (st.putLease k v l).kvs, 1 ≤ kv.createRev := by
  intro kv hkv
  unfold Store.putLease at hkv
  cases hg : st.getKV k with
  | some kv0 =>
      rw [hg] at hkv
      simp only [List.mem_map] at hkv
      obtain ⟨kv1, hm, rfl⟩ := hkv
      split <;> simpa using hwf kv1 hm
  | none =>
      rw [hg] at hkv
      simp only [List.mem_cons] at hkv
      rcases hkv with rfl | hm
      · exact h1
      · exact hwf kv hm

theorem find?_key_filter_ne (k : String) (l : List KeyVal) :
    List.find? (fun kv => kv.key == k) (l.filter (fun kv => kv.key != k)) = none := by
  induction l with
  | nil => rfl
  | cons a t ih =>
      by_cases h : a.key = k
      · simp [List.filter_cons, h, ih]
      · simp [List.filter_cons, h, List.find?_cons, ih]

theorem getKV_deleteKey (st : Store) (k : String) : (st.deleteKey k).getKV k = none := by
  simp [Store.deleteKey, Store.getKV, find?_key_filter_ne k st.kvs]

theorem lockTxn_eq (st : Store) (l : Nat) :
    lockTxn st l =
      if st.createRevision lockKey = 0 then
        if l ∈ st.alive then Except.ok (true, st.putLease lockKey "locked" l)
        else Except.error DErr.leaseInvalid
      else Except.ok (false, st) := by
  by_cases hcr : st.createRevision lockKey = 0
  · by_cases hal : l ∈ st.alive
    · simp [lockTxn, Store.txnCommit, Store.checkOps, Store.opLeaseOk, Store.evalCmp,
        Store.applyOp, hal, hcr]
    · simp [lockTxn, Store.txnCommit, Store.checkOps, Store.opLeaseOk, Store.evalCmp,
        Store.applyOp, hal, hcr]
  · simp [lockTxn, Store.txnCommit, Store.checkOps, Store.opLeaseOk, Store.evalCmp, hcr]

theorem updP_eq_held {f : Nat → PState} {p q : Nat} {v : PState}
    (h : updP f p v q = PState.held) :
    (q = p ∧ v = PState.held) ∨ (q ≠ p ∧ f q = PState.held) := by
  by_cases hpq : q = p
  · subst hpq
    rw [updP_self] at h
    exact Or.inl ⟨rfl, h⟩
  · rw [updP_other _ _ _ hpq] at h
    exact Or.inr ⟨hpq, h⟩

theorem stepInv {s s₁ : Sys} {a : Act} (h : sysInv s) (hs : stepAct s a = some s₁) :
    sysInv s₁ := by
  obtain ⟨h1, h2, h3⟩ := h
  cases a with
  | start p =>
      simp only [stepAct] at hs
      split at hs
      · injection hs with hs₁
        subst hs₁
        refine ⟨h1, h2, ?_⟩
        intro q hq
        rcases updP_eq_held hq with ⟨_, hv⟩ | ⟨_, hqs⟩
        · simp at hv
        · exact h3 q hqs
      · simp at hs
  | tryLock p =>
      simp only [stepAct] at hs
      split at hs
      · split at hs
        · rename_i st₁ heq
          injection hs with hs₁
          subst hs₁
          rw [lockTxn_eq] at heq
          by_cases hcr : s.store.createRevision lockKey = 0
          · rw [if_pos hcr] at heq
            by_cases hal : leaseOf p ∈ s.store.alive
            · rw [if_pos hal] at heq
              injection heq with heq₁
              injection heq₁ with _ heq₂
              subst heq₂
              have hnone := getKV_eq_none_of_createRevision_zero h2 hcr
              refine ⟨?_, ?_, ?_⟩
              · show 1 ≤ (s.store.putLease lockKey "locked" (leaseOf p)).nextRev
                rw [nextRev_putLease]
                omega
              · exact wf_putLease h1 h2
              · intro q hq
                rcases updP_eq_held hq with ⟨rfl, _⟩ | ⟨_, hqs⟩
                · exact ⟨"locked", s.store.nextRev, getKV_putLease_self hnone⟩
                · exfalso
                  obtain ⟨v, r, hkv⟩ := h3 q hqs
                  rw [hnone] at hkv
                  cases hkv
            · rw [if_neg hal] at heq
              cases heq
          · rw [if_neg hcr] at heq
            injection heq with heq₁
            injection heq₁ with hb _
            cases hb
        · rename_i st₂ heq
          injection hs with hs₁
          subst hs₁
          refine ⟨h1, h2, ?_⟩
          intro q hq
          rcases updP_eq_held hq with ⟨_, hv⟩ | ⟨_, hqs⟩
          · simp at hv
          · exact h3 q hqs
        · rename_i e heq
          injection hs with hs₁
          subst hs₁
          refine ⟨h1, h2, ?_⟩
          intro q hq
          rcases updP_eq_held hq with ⟨_, hv⟩ | ⟨_, hqs⟩
          · simp at hv
          · exact h3 q hqs
      · simp at hs
  | observe p =>
      simp only [stepAct] at hs
      split at hs
      · rename_i c hpw
        split at hs
        · rename_i e hev
          split at hs
          · injection hs with hs₁
            subst hs₁
            refine ⟨h1, h2, ?_⟩
            intro q hq
            rcases updP_eq_held hq with ⟨_, hv⟩ | ⟨_, hqs⟩
            · simp at hv
            · exact h3 q hqs
          · injection hs with hs₁
            subst hs₁
            refine ⟨h1, h2, ?_⟩
            intro q hq
            rcases updP_eq_held hq with ⟨_, hv⟩ | ⟨_, hqs⟩
            · simp at hv
            · exact h3 q hqs
        · simp at hs
      · simp at hs
  | unlock p =>
      simp only [stepAct] at hs
      split at hs
      · rename_i hp
        injection hs with hs₁
        subst hs₁
        refine ⟨?_, ?_, ?_⟩
        · show 1 ≤ (s.store.deleteKey lockKey).nextRev
          simp [Store.deleteKey]
        · intro kv hkv
          exact h2 kv (List.mem_of_mem_filter hkv)
        · intro q hq
          rcases updP_eq_held hq with ⟨_, hv⟩ | ⟨hne, hqs⟩
          · simp at hv
          · exfalso
            obtain ⟨v₁, r₁, hkq⟩ := h3 q hqs
            obtain ⟨v₂, r₂, hkp⟩ := h3 p hp
            rw [hkp] at hkq
            simp [leaseOf] at hkq
            obtain ⟨_, hl, _⟩ := hkq
            exact hne (by omega)
      · simp at hs
  | expire p =>
      simp only [stepAct] at hs
      split at hs
      · rename_i hp
        injection hs with hs₁
        subst hs₁
        refine ⟨h1, ?_, ?_⟩
        · intro kv hkv
          exact h2 kv (List.mem_of_mem_filter hkv)
        · intro q hq
          rcases updP_eq_held hq with ⟨_, hv⟩ | ⟨hne, hqs⟩
          · simp at hv
          · exfalso
            obtain ⟨v₁, r₁, hkq⟩ := h3 q hqs
            obtain ⟨v₂, r₂, hkp⟩ := h3 p hp
            rw [hkp] at hkq
            simp [leaseOf] at hkq
            obtain ⟨_, hl, _⟩ := hkq
            exact hne (by omega)
      · simp at hs

theorem runInv {acts : List Act} :
    ∀ {s s₁ : Sys}, sysInv s → runActs s acts = some s₁ → sysInv s₁ := by
  induction acts with
  | nil =>
      intro s s₁ h hr
      simp only [runActs] at hr
      injection hr with h'
      subst h'
      exact h
  | cons a rest ih =>
      intro s s₁ h hr
      simp only [runActs] at hr
      split at hr
      · rename_i s₂ hsa
        exact ih (stepInv h hsa) hr
      · simp at hr

theorem initInv (a : List Nat) : sysInv (initSys a) := by
  refine ⟨by simp [initSys], ?_, ?_⟩
  · intro kv hkv
    simp [initSys] at hkv
  · intro p hp
    simp [initSys] at hp

/-! ### Claim theorems -/

/-- C1: mutual exclusion of the conditional-write lock.  In every system
state reachable by any interleaving of lock-protocol steps from the initial
state, at most one process is in the Held state at any instant: any two
held processes are equal.  The conditional-write acquisition never lets two
callers both observe a succeeded transaction while the key exists. -/
theorem lock_mutual_exclusion (a : List Nat) (acts : List Act) (s : Sys) (p q : Nat)
    (h : runActs (initSys a) acts = some s)
    (hp : s.procs p = PState.held) (hq : s.procs q = PState.held) : p = q := by
  obtain ⟨-, -, h3⟩ := runInv (initInv a) h
  obtain ⟨v₁, r₁, hk₁⟩ := h3 p hp
  obtain ⟨v₂, r₂, hk₂⟩ := h3 q hq
  rw [hk₁] at hk₂
  simp [leaseOf] at hk₂
  obtain ⟨-, hl, -⟩ := hk₂
  omega

/-- Witness for C1: the mutual-exclusion theorem applied to the concrete
two-step run in which process 0 starts and wins the conditional write. -/
theorem lock_mutual_exclusion_witness : (0 : Nat) = 0 :=
  lock_mutual_exclusion [1] c1Acts c1Sys 0 0 rfl rfl rfl

/-- C2: a Lock acquisition attempt is the single atomic compare-and-branch
transaction whose condition is that the lock key's creation revision equals
0 (key absent) and whose then branch puts the key bound to the caller's
lease; whenever it reports success the caller is Held in that same atomic
step, the store being exactly the transaction's output with no further
store operation before the critical section. -/
theorem lock_txn_atomic_acquire (st : Store) (l : Nat)
    (hl : l ∈ st.alive) (hwf : ∀ kv ∈ st.kvs, 1 ≤ kv.createRev) :
    (lockTxn st l = Except.ok (true, st.putLease lockKey "locked" l) ↔
       st.createRevision lockKey = 0)
  ∧ (st.createRevision lockKey = 0 →
       (st.putLease lockKey "locked" l).getKV lockKey =
         some ⟨lockKey, "locked", l, st.nextRev⟩)
  ∧ (st.createRevision lockKey ≠ 0 → lockTxn st l = Except.ok (false, st))
  ∧ (∀ (pr : Nat → PState) (lg : List WEvent) (p : Nat) (st₁ : Store),
       leaseOf p = l → pr p = PState.attempting →
       lockTxn st l = Except.ok (true, st₁) →
       stepAct ⟨st, pr, lg⟩ (Act.tryLock p) =
         some ⟨st₁, updP pr p PState.held, lg ++ [⟨EvType.put, lockKey⟩]⟩) := by
  refine ⟨?_, ?_, ?_, ?_⟩
  · constructor
    · intro h
      by_contra hcr
      rw [lockTxn_eq, if_neg hcr] at h
      injection h with h₁
      injection h₁ with hb _
      cases hb
    · intro hcr
      rw [lockTxn_eq, if_pos hcr, if_pos hl]
  · intro hcr
    exact getKV_putLease_self (getKV_eq_none_of_createRevision_zero hwf hcr)
  · intro hcr
    rw [lockTxn_eq, if_neg hcr]
  · intro pr lg p st₁ hlp hpr htxn
    simp only [stepAct, hlp, htxn, hpr]
    simp

/-- Witness for C2: the success branch of the acquisition transaction on a
concrete empty store with the caller's lease 1 live. -/
theorem lock_txn_atomic_acquire_witness :
    lockTxn ⟨[], [1], 1, 2⟩ 1 =
      Except.ok (true, Store.putLease ⟨[], [1], 1, 2⟩ lockKey "locked" 1) :=
  (lock_txn_atomic_acquire ⟨[], [1], 1, 2⟩ 1 (by decide) (by decide)).1.mpr (by decide)

/-- C3: when a holder unlocks, the lock key is deleted directly and the
deletion fires a Delete event on the key; a waiter whose watch is at that
event observes it and moves back to Attempting, i.e. retries the
conditional-write step, while before the Delete event arrives the waiter's
observe action is not enabled at all (it blocks). -/
theorem unlock_fires_delete_retry (s : Sys) (p q : Nat) (c : Nat) (kv : KeyVal)
    (hp : s.procs p = PState.held) (hq : s.procs q = PState.waiting c)
    (hc : c = s.log.length) (hk : s.store.getKV lockKey = some kv) :
    ∃ s₁, stepAct s (Act.unlock p) = some s₁
      ∧ s₁.store.getKV lockKey = none
      ∧ s₁.log = s.log ++ [⟨EvType.del, lockKey⟩]
      ∧ stepAct s₁ (Act.observe q) =
          some ⟨s₁.store, updP s₁.procs q PState.attempting, s₁.log⟩
      ∧ stepAct s (Act.observe q) = none := by
  have hpq : q ≠ p := by
    intro h
    rw [h, hp] at hq
    cases hq
  have hde : s.store.deleteEvents lockKey = [⟨EvType.del, lockKey⟩] := by
    simp [Store.deleteEvents, hk]
  refine ⟨⟨s.store.deleteKey lockKey, updP s.procs p PState.idle,
           s.log ++ s.store.deleteEvents lockKey⟩, ?_, ?_, ?_, ?_, ?_⟩
  · simp [stepAct, hp]
  · exact getKV_deleteKey s.store lockKey
  · show s.log ++ s.store.deleteEvents lockKey = s.log ++ [⟨EvType.del, lockKey⟩]
    rw [hde]
  · have hpr : updP s.procs p PState.idle q = PState.waiting c := by
      rw [updP_other _ _ _ hpq, hq]
    simp only [stepAct, hpr, hde, hc]
    rw [List.getElem?_concat_length]
    simp
  · have hnone : s.log[c]? = (none : Option WEvent) := by
      rw [hc]
      exact List.getElem?_eq_none (Nat.le_refl _)
    simp [stepAct, hq, hnone]

/-- Witness for C3: the unlock-then-observe scenario run from the concrete
contended state in which process 0 holds the lock and process 1 waits. -/
theorem unlock_fires_delete_retry_witness :
    ∃ s₁, stepAct c3Sys (Act.unlock 0) = some s₁
      ∧ s₁.store.getKV lockKey = none
      ∧ s₁.log = c3Sys.log ++ [⟨EvType.del, lockKey⟩]
      ∧ stepAct s₁ (Act.observe 1) =
          some ⟨s₁.store, updP s₁.procs 1 PState.attempting, s₁.log⟩
      ∧ stepAct c3Sys (Act.observe 1) = none :=
  unlock_fires_delete_retry c3Sys 0 1 0 ⟨lockKey, "locked", 1, 1⟩ rfl rfl rfl (by decide)

/-- C4 evidence: with the lock key held by another lease (lease 2), a
caller with live lease 1 whose watch channel closes without delivering a
Delete event falls out of the range loop and continues into the critical
section without holding the lock, instead of surfacing an error; the
subsequent step-7 delete would then remove the actual holder's key. -/
theorem watch_closed_falls_to_critical :
    lockRound c4Store 1 [] = RoundRes.criticalNoLock c4Store
  ∧ c4Store.getKV lockKey = some ⟨lockKey, "locked", 2, 1⟩
  ∧ (c4Store.deleteKey lockKey).getKV lockKey = none := by
  refine ⟨by decide, by decide, by decide⟩

/-- Counterexample to C5 as stated: with the lock key already held by
lease 2, a caller whose lease 7 is not live gets succeeded = false from the
transaction with no error (the server lease-checks only the taken branch,
and the taken else branch is empty), so it enters the watch-and-retry loop
and retries on the Delete event instead of returning LeaseInvalid. -/
theorem invalid_lease_waits_when_contended :
    lockRound ⟨[⟨lockKey, "locked", 2, 1⟩], [2], 2, 3⟩ 7 [⟨EvType.del, lockKey⟩]
      = RoundRes.retryAfterDel
  ∧ lockRound ⟨[⟨lockKey, "locked", 2, 1⟩], [2], 2, 3⟩ 7 [⟨EvType.del, lockKey⟩]
      ≠ RoundRes.fatal DErr.leaseInvalid
  ∧ (7 : Nat) ∉ (⟨[⟨lockKey, "locked", 2, 1⟩], [2], 2, 3⟩ : Store).alive := by
  refine ⟨by decide, by decide, by decide⟩

/-- C5 amended: a Lock attempt whose lease is not live (nil leases are
never granted; expired leases have left the live set) fails fast with the
LeaseInvalid error, without entering the watch-and-retry loop, whenever the
lock key does not currently exist (the compare succeeds and the put's lease
is checked); when the key is held by another lease the caller enters the
watch loop like any contender, but no outcome of the attempt is ever an
acquisition: an invalid lease can never obtain the lock. -/
theorem invalid_lease_never_acquires (st : Store) (l : Nat) (evs : List WEvent)
    (h : l ∉ st.alive) :
    (st.createRevision lockKey = 0 →
       lockRound st l evs = RoundRes.fatal DErr.leaseInvalid)
  ∧ (∀ st₁, lockRound st l evs ≠ RoundRes.acquired st₁) := by
  constructor
  · intro hcr
    unfold lockRound
    rw [lockTxn_eq, if_pos hcr, if_neg h]
  · intro st₁ hacq
    unfold lockRound at hacq
    rw [lockTxn_eq] at hacq
    by_cases hcr : st.createRevision lockKey = 0
    · rw [if_pos hcr, if_neg h] at hacq
      simp at hacq
    · rw [if_neg hcr] at hacq
      cases hw : waitForDelete evs <;> simp [hw] at hacq

/-- Witness for the amended C5: the never-granted lease 7 on an empty store
fails fast with LeaseInvalid and cannot acquire. -/
theorem invalid_lease_never_acquires_witness :
    lockRound ⟨[], [], 1, 1⟩ 7 [] = RoundRes.fatal DErr.leaseInvalid
  ∧ ∀ st₁, lockRound ⟨[], [], 1, 1⟩ 7 [] ≠ RoundRes.acquired st₁ :=
  ⟨(invalid_lease_never_acquires ⟨[], [], 1, 1⟩ 7 [] (by decide)).1 (by decide),
   (invalid_lease_never_acquires ⟨[], [], 1, 1⟩ 7 [] (by decide)).2⟩

theorem strData_inj {u v : String} (h : u.data = v.data) : u = v := by
  cases u
  cases v
  exact congrArg String.mk h

theorem strAppend_right_inj (a : String) {u v : String} (h : a ++ u = a ++ v) : u = v := by
  have hd : a.data ++ u.data = a.data ++ v.data := by
    rw [← String.data_append, ← String.data_append, h]
  exact strData_inj (List.append_cancel_left hd)

theorem keyInRange_self (p : String) : keyInRange p p = true := by
  unfold keyInRange
  rw [ List.isPrefixOf_iff_prefix]

theorem keyInRange_append (p s t : String) (h : keyInRange p s = true) :
    keyInRange p (s ++ t) = true := by
  unfold keyInRange at h ⊢
  rw [ List.isPrefixOf_iff_prefix] at h ⊢
  rw [String.data_append]
  exact h.trans (List.prefix_append _ _)

theorem getServiceAddr_sel {st : Store} {name : String} {i : Nat} {kv : KeyVal}
    (h : (st.kvs.filter (fun kv => keyInRange name kv.key))[i]? = some kv) :
    getServiceAddr st name i = Except.ok kv.value := by
  obtain ⟨hlt, hget⟩ := List.getElem?_eq_some.mp h
  have hl : ¬ (st.kvs.filter (fun kv => keyInRange name kv.key)).length = 0 := by omega
  unfold getServiceAddr
  rw [dif_neg hl]
  have hfin : (⟨i % (st.kvs.filter (fun kv => keyInRange name kv.key)).length,
      Nat.mod_lt _ (Nat.pos_of_ne_zero hl)⟩ :
        Fin (st.kvs.filter (fun kv => keyInRange name kv.key)).length) = ⟨i, hlt⟩ :=
    Fin.ext (Nat.mod_eq_of_lt hlt)
  rw [hfin, List.get_eq_getElem]
  simp [hget]

/-- C6 evidence: a Registry call in which the grant succeeds and the bound
put fails returns the put error while leaving the freshly granted lease 1
live with no key bound to it — the code does not revoke the lease before
returning, leaking a live lease with no associated record. -/
theorem put_failure_leaks_lease :
    registryCall ⟨false, true, false⟩ ⟨[], [], 1, 1⟩ ⟨0⟩
        ⟨"order_service", "localhost:8080"⟩ "u1"
      = (⟨[], [1], 1, 2⟩, ⟨1⟩, some RErr.connection)
  ∧ (1 : Nat) ∈ (⟨[], [1], 1, 2⟩ : Store).alive
  ∧ (⟨[], [1], 1, 2⟩ : Store).kvs.filter (fun kv => kv.lease == 1) = [] := by
  refine ⟨by decide, by decide, by decide⟩

/-- C7 evidence: after two Registry calls on the same RegistryEtcd (as in
registry_test.go) the leaseID field holds only the second lease, so
DeRegistry revokes lease 2 alone: the first record survives with its lease
1 still live, and a Resolve of the service name still returns its address
instead of reporting that all of the process's records are gone. -/
theorem deregistry_leaves_first_record :
    registryCall ⟨false, false, false⟩ ⟨[], [], 1, 1⟩ ⟨0⟩
        ⟨"order_service", "localhost:8080"⟩ "u1" = (c7St1, ⟨1⟩, none)
  ∧ registryCall ⟨false, false, false⟩ c7St1 ⟨1⟩
        ⟨"order_service", "localhost:8080"⟩ "u2" = (c7St2, ⟨2⟩, none)
  ∧ deRegistry c7St2 ⟨2⟩ = (c7St3, none)
  ∧ c7St3.getKV "order_service-u1" =
      some ⟨"order_service-u1", "localhost:8080", 1, 1⟩
  ∧ (1 : Nat) ∈ c7St3.alive
  ∧ getServiceAddr c7St3 "order_service" 0 = Except.ok "localhost:8080" := by
  refine ⟨by decide, by decide, by decide, by decide, by decide, by rfl⟩

/-- C8: GetServiceAddr reads every record whose key the queried name is a
raw prefix of; it returns the notFound error exactly when that read yields
no record, and otherwise returns the stored address of one of the matched
records; every matched record is selectable (the record at index i is
returned for the randomness value i), so a uniformly random index selects
uniformly among the matched records. -/
theorem resolve_random_among_matches (st : Store) (name : String) :
    (∀ rnd, getServiceAddr st name rnd = Except.error RErr.notFound ↔
        st.kvs.filter (fun kv => keyInRange name kv.key) = [])
  ∧ (∀ (i : Nat) (kv : KeyVal),
        (st.kvs.filter (fun kv => keyInRange name kv.key))[i]? = some kv →
        getServiceAddr st name i = Except.ok kv.value)
  ∧ (∀ (rnd : Nat) (a : String), getServiceAddr st name rnd = Except.ok a →
        ∃ kv, kv ∈ st.kvs ∧ keyInRange name kv.key = true ∧ kv.value = a) := by
  refine ⟨?_, ?_, ?_⟩
  · intro rnd
    unfold getServiceAddr
    by_cases hl : (st.kvs.filter (fun kv => keyInRange name kv.key)).length = 0
    · rw [dif_pos hl]
      simp [List.length_eq_zero.mp hl]
    · rw [dif_neg hl]
      constructor
      · intro h
        simp at h
      · intro h
        rw [h] at hl
        simp at hl
  · intro i kv h
    exact getServiceAddr_sel h
  · intro rnd a h
    unfold getServiceAddr at h
    by_cases hl : (st.kvs.filter (fun kv => keyInRange name kv.key)).length = 0
    · rw [dif_pos hl] at h
      simp at h
    · rw [dif_neg hl] at h
      injection h with h₁
      have hmem := List.get_mem (st.kvs.filter (fun kv => keyInRange name kv.key))
        (rnd % (st.kvs.filter (fun kv => keyInRange name kv.key)).length)
        (Nat.mod_lt _ (Nat.pos_of_ne_zero hl))
      obtain ⟨hmem1, hmem2⟩ := List.mem_filter.mp hmem
      exact ⟨_, hmem1, hmem2, h₁⟩

/-- Witness for C8: on a store with one matching record, randomness 0
selects that record's address. -/
theorem resolve_random_among_matches_witness :
    getServiceAddr ⟨[⟨"svc-1", "a1", 1, 1⟩], [1], 2, 2⟩ "svc" 0 = Except.ok "a1" :=
  (resolve_random_among_matches ⟨[⟨"svc-1", "a1", 1, 1⟩], [1], 2, 2⟩ "svc").2.1 0
    ⟨"svc-1", "a1", 1, 1⟩ (by decide)

theorem alive_putLease (st : Store) (k v : String) (l : Nat) :
    (st.putLease k v l).alive = st.alive := by
  unfold Store.putLease
  cases st.getKV k <;> rfl

/-- C9: a successful Registry call writes exactly one new record whose key
is the service name, a dash and the fresh uuid, bound to the lease granted
in that same call, and records its lease id in the leaseID field; two calls
with distinct uuids therefore produce two independent records with distinct
keys, both inside the key range of the service name. -/
theorem registry_one_record_per_call (st : Store) (r : RegistryEtcd) (svc : RegSvc)
    (u₁ u₂ : String) (hu : u₁ ≠ u₂)
    (h1 : st.getKV (svc.name ++ "-" ++ u₁) = none)
    (h2 : st.getKV (svc.name ++ "-" ++ u₂) = none) :
    ∃ st₁ r₁ st₂ r₂,
      registryCall ⟨false, false, false⟩ st r svc u₁ = (st₁, r₁, none)
    ∧ st₁.kvs = ⟨svc.name ++ "-" ++ u₁, svc.addr, st.nextLease, st.nextRev⟩ :: st.kvs
    ∧ r₁.leaseID = st.nextLease
    ∧ st₁.alive = st.nextLease :: st.alive
    ∧ registryCall ⟨false, false, false⟩ st₁ r₁ svc u₂ = (st₂, r₂, none)
    ∧ st₂.kvs = ⟨svc.name ++ "-" ++ u₂, svc.addr, st₁.nextLease, st₁.nextRev⟩ :: st₁.kvs
    ∧ (svc.name ++ "-" ++ u₁) ≠ (svc.name ++ "-" ++ u₂)
    ∧ keyInRange svc.name (svc.name ++ "-" ++ u₁) = true
    ∧ keyInRange svc.name (svc.name ++ "-" ++ u₂) = true := by
  have hne : (svc.name ++ "-" ++ u₁) ≠ (svc.name ++ "-" ++ u₂) := by
    intro h
    exact hu (strAppend_right_inj (svc.name ++ "-") h)
  have hkvs₁ : ((st.grant.2).putLease (svc.name ++ "-" ++ u₁) svc.addr st.nextLease).kvs =
      ⟨svc.name ++ "-" ++ u₁, svc.addr, st.nextLease, st.nextRev⟩ :: st.kvs :=
    kvs_putLease_of_none h1
  have h2' : ((st.grant.2).putLease (svc.name ++ "-" ++ u₁) svc.addr st.nextLease).getKV
      (svc.name ++ "-" ++ u₂) = none := by
    rw [Store.getKV, hkvs₁]
    rw [List.find?_cons_of_neg _ (by simp [hne])]
    exact h2
  refine ⟨(st.grant.2).putLease (svc.name ++ "-" ++ u₁) svc.addr st.nextLease,
          ⟨st.nextLease⟩, _, _, rfl, hkvs₁, rfl, ?_, rfl, ?_, hne, ?_, ?_⟩
  · rw [alive_putLease]
    rfl
  · exact kvs_putLease_of_none h2'
  · exact keyInRange_append _ _ _ (keyInRange_append _ _ _ (keyInRange_self _))
  · exact keyInRange_append _ _ _ (keyInRange_append _ _ _ (keyInRange_self _))

/-- Witness for C9: two Registry calls with distinct uuids on an empty
store. -/
theorem registry_one_record_per_call_witness :
    ∃ st₁ r₁ st₂ r₂,
      registryCall ⟨false, false, false⟩ ⟨[], [], 1, 1⟩ ⟨0⟩ ⟨"s", "a"⟩ "x" = (st₁, r₁, none)
    ∧ st₁.kvs = [⟨"s" ++ "-" ++ "x", "a", 1, 1⟩]
    ∧ r₁.leaseID = 1
    ∧ st₁.alive = [1]
    ∧ registryCall ⟨false, false, false⟩ st₁ r₁ ⟨"s", "a"⟩ "y" = (st₂, r₂, none)
    ∧ st₂.kvs = ⟨"s" ++ "-" ++ "y", "a", st₁.nextLease, st₁.nextRev⟩ :: st₁.kvs
    ∧ ("s" ++ "-" ++ "x" : String) ≠ ("s" ++ "-" ++ "y")
    ∧ keyInRange "s" ("s" ++ "-" ++ "x") = true
    ∧ keyInRange "s" ("s" ++ "-" ++ "y") = true :=
  registry_one_record_per_call ⟨[], [], 1, 1⟩ ⟨0⟩ ⟨"s", "a"⟩ "x" "y"
    (by decide) (by decide) (by decide)

/-- C10: GetServiceAddr matches records by raw key prefix with no separator
check, so whenever one queried name is a raw prefix of another registered
service's name, resolving the shorter name can return the address that the
Registry call stored under the longer name. -/
theorem resolve_raw_key_range_overlap (st : Store) (r : RegistryEtcd) (svc : RegSvc)
    (u shortN : String) (st₁ : Store) (r₁ : RegistryEtcd)
    (hpre : keyInRange shortN svc.name = true)
    (h1 : st.getKV (svc.name ++ "-" ++ u) = none)
    (hcall : registryCall ⟨false, false, false⟩ st r svc u = (st₁, r₁, none)) :
    ∃ rnd, getServiceAddr st₁ shortN rnd = Except.ok svc.addr := by
  have hst : st₁ = (st.grant.2).putLease (svc.name ++ "-" ++ u) svc.addr st.nextLease := by
    have h := congrArg (fun t => t.1) hcall
    simpa using h.symm
  have hkvs : st₁.kvs = ⟨svc.name ++ "-" ++ u, svc.addr, st.nextLease, st.nextRev⟩ :: st.kvs := by
    rw [hst]
    exact kvs_putLease_of_none h1
  have hmatch : keyInRange shortN (svc.name ++ "-" ++ u) = true :=
    keyInRange_append _ _ _ (keyInRange_append _ _ _ hpre)
  have hfilter : st₁.kvs.filter (fun kv => keyInRange shortN kv.key) =
      ⟨svc.name ++ "-" ++ u, svc.addr, st.nextLease, st.nextRev⟩ ::
        st.kvs.filter (fun kv => keyInRange shortN kv.key) := by
    rw [hkvs, List.filter_cons]
    simp [hmatch]
  exact ⟨0, @getServiceAddr_sel st₁ shortN 0
    ⟨svc.name ++ "-" ++ u, svc.addr, st.nextLease, st.nextRev⟩
    (by rw [hfilter]; exact List.getElem?_cons_zero)⟩

/-- Witness for C10: with "order_service" registered at localhost:8080,
resolving the raw prefix "order" returns that address. -/
theorem resolve_raw_key_range_overlap_witness :
    ∃ rnd, getServiceAddr ⟨[⟨"order_service-u1", "localhost:8080", 1, 1⟩], [1], 2, 2⟩
      "order" rnd = Except.ok "localhost:8080" :=
  resolve_raw_key_range_overlap ⟨[], [], 1, 1⟩ ⟨0⟩ ⟨"order_service", "localhost:8080"⟩
    "u1" "order" ⟨[⟨"order_service-u1", "localhost:8080", 1, 1⟩], [1], 2, 2⟩ ⟨1⟩
    (by decide) (by decide) (by decide)
